import Mathlib

/-!
# Verification of the flins / stress_fiber mechanics core

A shallow embedding, in Lean 4, of the parts of the
`AllenCellModeling/flins` repository that the frozen claims talk about:

* `flins/support/binding_site.py` — the `BindingSite` mutual-link protocol;
* `stress_fiber/support/hexmath.py` and `stress_fiber/space/grids.py` —
  cube-coordinate hex math and grid mirroring;
* `stress_fiber/support/diffuse.py` — `coerce_to_bounds` boundary reflection
  and the free-diffusion helpers used by `Actin`;
* `stress_fiber/support/kinetics.py` — `rate_to_prob` / `reverse_rate`;
* `stress_fiber/proteins/motor.py` — the `MotorHead` three-state machine;
* `flins/proteins/alpha_actinin.py` — the `ActininHead` spring properties;
* `stress_fiber/proteins/actin.py` — the unbound branch of `Actin.step`.

Machine reals (Python floats) are modelled as `ℚ` where the code only does
field arithmetic and comparisons, and as `ℝ` where it calls `exp` / `tanh` /
`sqrt`.  Python `assert` failures and raised exceptions are modelled as
`none` / explicit error constructors.  Unbounded Python recursion
(`coerce_to_bounds`) is modelled with an explicit fuel argument.
-/

namespace Flins

/-! ## BindingSite (`flins/support/binding_site.py`)

A `BindingSite` holds `link`, either `None` or a reference to another site.
We model the heap of all sites as a function from site ids (`ℕ`) to the
optional id of the linked site, and the sites' `parent` objects as a fixed
map from site ids to owner ids. -/

/-- The link state of every binding site: `s a = some b` means site `a`'s
`link` field points at site `b`; `none` means unlinked. -/
def BState : Type := ℕ → Option ℕ

/-- Source `BindingSite.bound`: `self.link is not None`. -/
def bbound (s : BState) (a : ℕ) : Bool := (s a).isSome

/-- Source `BindingSite.linked`: parent object of the linked site, `None` if
unbound.  `ow` maps each site id to the id of its parent object. -/
def blinked (ow : ℕ → ℕ) (s : BState) (a : ℕ) : Option ℕ := (s a).map ow

/-- Source `BindingSite.bind(other)`: asserts neither site is bound, then sets
`self.link = other; self.link.link = self`.  `none` models an assertion
failure (raised `AssertionError`). -/
def bind (s : BState) (a b : ℕ) : Option BState :=
  if bbound s a || bbound s b then none
  else some (fun x => if x = b then some a else if x = a then some b else s x)

/-- Source `BindingSite.unbind()`: asserts `self.bound` and `self.link.bound`, then
sets `self.link.link = None; self.link = None`.  `none` models an assertion
failure. -/
def unbind (s : BState) (a : ℕ) : Option BState :=
  match s a with
  | none => none
  | some b =>
      if (s b).isSome then
        some (fun x => if x = a then none else if x = b then none else s x)
      else none

/-- One public call on the `BindingSite` interface. -/
inductive BOp : Type
  | doBind (a b : ℕ)
  | doUnbind (a : ℕ)

/-- Effect of one call; a call whose assertion fails raises before mutating
anything, so it leaves the heap unchanged. -/
def applyOp (s : BState) : BOp → BState
  | .doBind a b => (bind s a b).getD s
  | .doUnbind a => (unbind s a).getD s

/-- Run a sequence of public calls. -/
def runOps (s : BState) : List BOp → BState
  | [] => s
  | op :: rest => runOps (applyOp s op) rest

/-- The all-unbound configuration. -/
def emptyBState : BState := fun _ => none

/-- Does this call pass two distinct sites to `bind`? -/
def distinctArgs : BOp → Prop
  | .doBind a b => a ≠ b
  | .doUnbind _ => True

instance : DecidablePred distinctArgs := by
  intro op; cases op <;> simp [distinctArgs] <;> infer_instance

/-- The spec's link invariant: every link is mutual and joins two distinct
sites. -/
def Mutual (s : BState) : Prop :=
  ∀ a b : ℕ, s a = some b → a ≠ b ∧ s b = some a

/-! ## `coerce_to_bounds` (`stress_fiber/support/diffuse.py`)

The Python function recurses without bound, so we give the embedding an
explicit fuel argument; `outOfFuel` means the Python call is still
recursing after `fuel` reflections.  `err` models a raised `Exception`. -/

/-- Result of a `coerce_to_bounds` call. -/
inductive CoerceResult : Type
  | ok (m1 m2 : ℚ)
  | err
  | outOfFuel
  deriving DecidableEq

/-- Source `coerce_to_bounds(mol_start, mol_end, (b1, b2))`: raises if the molecule
is longer than the boundary span or either pair is reversed, otherwise
reflects the segment across whichever boundary it has crossed and recurses. -/
def coerce_to_bounds (fuel : ℕ) (m1 m2 b1 b2 : ℚ) : CoerceResult :=
  match fuel with
  | 0 => .outOfFuel
  | fuel + 1 =>
      if m2 - m1 > b2 - b1 then .err
      else if m1 > m2 ∨ b1 > b2 then .err
      else if m1 < b1 then
        coerce_to_bounds fuel (m1 + 2 * (b1 - m1)) (m2 + 2 * (b1 - m1)) b1 b2
      else if m2 > b2 then
        coerce_to_bounds fuel (m1 - 2 * (m2 - b2)) (m2 - 2 * (m2 - b2)) b1 b2
      else .ok m1 m2

/-- Source `coerce_to_bounds` terminates on this input: some finite amount of fuel
suffices. -/
def CoerceTerminates (m1 m2 b1 b2 : ℚ) : Prop :=
  ∃ (n : ℕ) (r1 r2 : ℚ), coerce_to_bounds n m1 m2 b1 b2 = .ok r1 r2

/-! ## Cube-coordinate hex math (`stress_fiber/support/hexmath` /
`stress_fiber/space/hexmath.py`, class `Cube`)

Coordinates are integer triples `(i, j, k)`; valid ones sum to zero. -/

/-- A cube coordinate. -/
abbrev Coord : Type := ℤ × ℤ × ℤ

/-- Source `Cube.validate`: is this a valid cube coordinate? -/
def validate (p : Coord) : Prop := p.1 + p.2.1 + p.2.2 = 0

instance : DecidablePred validate := fun p => by unfold validate; infer_instance

/-- Twice `Cube.distance`: the summed absolute coordinate difference.  The
source divides by two; we keep the integer double alongside. -/
def dist2 (p q : Coord) : ℕ :=
  (p.1 - q.1).natAbs + (p.2.1 - q.2.1).natAbs + (p.2.2 - q.2.2).natAbs

/-- Source `Cube.distance`: hex Manhattan distance, half the summed absolute
difference. -/
def distance (p q : Coord) : ℚ := (dist2 p q : ℚ) / 2

/-- Source `Cube.within_radius` with the default origin: `max(|i|,|j|,|k|) ≤ n`. -/
def within_radius (p : Coord) (n : ℕ) : Prop :=
  max (max p.1.natAbs p.2.1.natAbs) p.2.2.natAbs ≤ n

instance : ∀ p n, Decidable (within_radius p n) := fun p n => by
  unfold within_radius; infer_instance

/-- Source `np.roll([i,j,k], 1)`: cyclic shift one step to the right. -/
def roll1 (p : Coord) : Coord := (p.2.2, p.1, p.2.1)

/-- Source `Cube.rotate_about_center`: roll the triple `n` steps; odd rotations
invert the signs. -/
def rotate_about_center (p : Coord) (n : ℕ) : Coord :=
  let q := roll1^[n] p
  if n % 2 = 1 then (-q.1, -q.2.1, -q.2.2) else q

/-- Source `Cube.mirrored_centers`: the six 60°-rotated images of
`(2r+1, -r, -r-1)`. -/
def mirrored_centers (r : ℕ) : List Coord :=
  (List.range 6).map (rotate_about_center (2 * (r : ℤ) + 1, -(r : ℤ), -(r : ℤ) - 1))

/-- Accumulator loop behind `Cube.closest`: `np.argmin` keeps the first
index attaining the minimum, so a strictly smaller distance is needed to
replace the current best. -/
def closestAux (p : Coord) (best : Coord) : List Coord → Coord
  | [] => best
  | c :: cs =>
      if distance p c < distance p best then closestAux p c cs
      else closestAux p best cs

/-- Source `Cube.closest`: the point of the list closest to `p` (first minimiser).
`np.argmin` on an empty list raises; the `[]` case is never reached from
`mirror`, whose list always has six entries. -/
def closest (p : Coord) : List Coord → Coord
  | [] => p
  | c :: cs => closestAux p c cs

/-- Source `Cube.mirror` / `HexGrid.mirror`: return the location unchanged if it is
within the grid radius, else subtract the closest mirrored center. -/
def mirror (p : Coord) (r : ℕ) : Coord :=
  if within_radius p r then p
  else
    (p.1 - (closest p (mirrored_centers r)).1,
     p.2.1 - (closest p (mirrored_centers r)).2.1,
     p.2.2 - (closest p (mirrored_centers r)).2.2)

/-! ## Kinetics (`stress_fiber/support/kinetics.py`) and units
(`stress_fiber/support/units.py`) over the reals. -/

/-- Source `units.joules`: convert J to pN·nm. -/
noncomputable def joules (x : ℝ) : ℝ := x * 10 ^ (21 : ℕ)

/-- Source `units.milliseconds`: convert ms to s. -/
noncomputable def milliseconds (x : ℝ) : ℝ := x * 0.001

/-- Source `units.constants.temperature`. -/
noncomputable def temperature : ℝ := 288

/-- Source `units.constants.boltzmann` in pN·nm/K. -/
noncomputable def boltzmann : ℝ := joules (1.38 * (10 : ℝ) ^ (-23 : ℤ))

/-- Source `units.constants.kT`. -/
noncomputable def kT : ℝ := boltzmann * temperature

/-- Source `units.world.timestep`: a 1 ms tick, in seconds. -/
noncomputable def timestep : ℝ := milliseconds 1

/-- Source `rate_to_prob(rate, obs_duration) = 1 - exp(-rate * obs_duration)`. -/
noncomputable def rate_to_prob (rate obs_duration : ℝ) : ℝ :=
  1 - Real.exp (-rate * obs_duration)

/-- Source `reverse_rate(rate_12, g1, g2) = rate_12 / exp(g1 - g2)` over the reals
(the float overflow/underflow saturation branches cannot fire here). -/
noncomputable def reverse_rate (rate_12 free_energy_1 free_energy_2 : ℝ) : ℝ :=
  rate_12 / Real.exp (free_energy_1 - free_energy_2)

/-! ## Springs (`stress_fiber/support/spring.py`) -/

/-- Source `Spring.energy(length) = 0.5 * k * (length - rest)²`. -/
noncomputable def spring_energy (k rest length : ℝ) : ℝ :=
  0.5 * k * (length - rest) ^ 2

/-- Source `Spring.force(length) = k * (length - rest)`. -/
noncomputable def spring_force (k rest length : ℝ) : ℝ := k * (length - rest)

/-! ## MotorHead state machine (`stress_fiber/proteins/motor.py`)

The parent `Motor` carries three springs, `ks = (kT, kT, 2kT)` and
`rs = (30, 30, 24)`, indexed by head state.  The head's surroundings
(the candidate binding site, the backbone length, the random draw) are
inputs to each step. -/

/-- Spring stiffness of the motor spring for a given state index. -/
noncomputable def motor_k (state : ℕ) : ℝ := if state = 2 then kT * 2 else kT

/-- Rest length of the motor spring for a given state index. -/
noncomputable def motor_rest (state : ℕ) : ℝ := if state = 2 then 24 else 30

/-- Source `MotorHead._r01(dist) = 100 * exp(-(0.25 dist)²)`. -/
noncomputable def mh_r01 (dist : ℝ) : ℝ :=
  100 * Real.exp (-(0.25 * dist) ^ 2)

/-- Source `MotorHead._free_energy(dist, state)`: state 0 is the reference, bound
states subtract an ATP-hydrolysis fraction of `12 kT`. -/
noncomputable def mh_free_energy (dist : ℝ) (state : ℕ) : ℝ :=
  if state = 0 then 0
  else if state = 1 then spring_energy (motor_k 1) (motor_rest 1) dist - 0.28 * 12 * kT
  else spring_energy (motor_k 2) (motor_rest 2) dist - 0.68 * 12 * kT

/-- Source `MotorHead._r10(length)`: detailed-balance reverse of `_r01`. -/
noncomputable def mh_r10 (length : ℝ) : ℝ :=
  reverse_rate (mh_r01 |length - motor_rest 0|)
    (mh_free_energy length 0) (mh_free_energy length 1)

/-- Source `MotorHead._r12(length)`: saturating tanh of state-1 strain. -/
noncomputable def mh_r12 (length : ℝ) : ℝ :=
  48 * (1 - Real.tanh (0.5 * ((length - motor_rest 1) + 2.0))) + 4

/-- Source `MotorHead._r21(length)`: detailed-balance reverse of `_r12`. -/
noncomputable def mh_r21 (length : ℝ) : ℝ :=
  reverse_rate (mh_r12 length) (mh_free_energy length 1) (mh_free_energy length 2)

/-- Source `MotorHead._r20(length)`: asymmetric paraboloid of state-2 strain. -/
noncomputable def mh_r20 (length : ℝ) : ℝ :=
  (Real.sqrt (32 * (length - motor_rest 2) ^ 2) - 3 * (length - motor_rest 2)) + 10

/-- Mutable state of one `MotorHead`: its `state` attribute and whether its
own `BindingSite` is bound. -/
structure MHState : Type where
  state : ℕ
  bsBound : Bool
  deriving DecidableEq

/-- Environment of one `MotorHead.step` call: the `bs` argument (its
bound flag and its parent's x, `None` when absent), whether the
other head is bound to the same filament as the offered site (the
self-binding guard), the `length` argument, the head's own `x`, and the
tick's `np.random.rand()` draw. -/
structure MHInput : Type where
  bs : Option (Bool × ℝ)
  skipSelf : Bool
  length : Option ℝ
  selfX : ℝ
  check : ℝ

/-- Source `MotorHead.step`: one stochastic transition of the three-state cycle.
`none` models a raised exception (missing argument, invalid state, or a
`BindingSite` assertion failure inside `bind`/`unbind`). -/
noncomputable def mh_step (h : MHState) (a : MHInput) : Option MHState :=
  if h.state = 0 then
    match a.bs with
    | none => none
    | some site =>
        if a.skipSelf then some h
        else if rate_to_prob (mh_r01 |site.2 - a.selfX|) timestep > a.check then
          if h.bsBound || site.1 then none
          else some ⟨1, true⟩
        else some h
  else if h.state = 1 then
    match a.length with
    | none => none
    | some len =>
        if rate_to_prob (mh_r12 len) timestep > a.check then some ⟨2, h.bsBound⟩
        else if 1 - rate_to_prob (mh_r10 len) timestep < a.check then
          if h.bsBound then some ⟨0, false⟩ else none
        else some h
  else if h.state = 2 then
    match a.length with
    | none => none
    | some len =>
        if rate_to_prob (mh_r20 len) timestep > a.check then
          if h.bsBound then some ⟨0, false⟩ else none
        else if 1 - rate_to_prob (mh_r21 len) timestep < a.check then
          some ⟨1, h.bsBound⟩
        else some h
  else none

/-- Run a `MotorHead` through a list of step environments; a raised
exception aborts the run. -/
noncomputable def mh_run (h : MHState) : List MHInput → Option MHState
  | [] => some h
  | a :: rest =>
      match mh_step h a with
      | none => none
      | some h' => mh_run h' rest

/-- A freshly constructed `MotorHead`: `state = 0`, `BindingSite` unbound. -/
def mh_init : MHState := ⟨0, false⟩

/-- The spec's motor-head invariant: the own `BindingSite` is bound exactly
in the weak and strong states. -/
def MHInv (h : MHState) : Prop := h.bsBound = true ↔ h.state = 1 ∨ h.state = 2

instance : ∀ h, Decidable (MHInv h) := fun h => by unfold MHInv; infer_instance

/-! ## Two-headed spring properties
(`flins/proteins/alpha_actinin.py` `ActininHead`, and
`stress_fiber/proteins/motor.py` `MotorHead.force`/`energy`)

For the spring-property calculations the relevant snapshot of a head is:
whether its own site is bound, whether the other head's site is bound, and
the two heads' current `x` locations (derived elsewhere from the parent
geometry or the linked sites).  Over `ℚ`, since `AlphaActinin`'s spring is
`Spring(3.75, 36)` and only field arithmetic occurs. -/

/-- Snapshot of an `ActininHead` (or `MotorHead`) and its partner. -/
structure HeadSnap : Type where
  selfBound : Bool
  otherBound : Bool
  selfX : ℚ
  otherX : ℚ
  deriving DecidableEq

/-- The `AlphaActinin` spring stiffness, `Spring(3.75, 36)`. -/
def actinin_k : ℚ := 3.75

/-- The `AlphaActinin` spring rest length. -/
def actinin_rest : ℚ := 36

/-- Source `Spring.energy` over `ℚ` for the rational-parameter springs. -/
def spring_energyQ (k rest length : ℚ) : ℚ := 0.5 * k * (length - rest) ^ 2

/-- Source `Spring.force` over `ℚ`. -/
def spring_forceQ (k rest length : ℚ) : ℚ := k * (length - rest)

/-- Source `ActininHead._spring_property(prop, x)`: 0 if the *other* head is
unbound, else `prop(|x - other.x|)`.  (The head's own `bs.bound` is not
consulted.)  `MotorHead._spring_property` is line-for-line identical. -/
def head_spring_property (h : HeadSnap) (prop : ℚ → ℚ) (x : ℚ) : ℚ :=
  if !h.otherBound then 0 else prop |x - h.otherX|

/-- Source `ActininHead.energy(x)`. -/
def actininHead_energy (h : HeadSnap) (x : ℚ) : ℚ :=
  head_spring_property h (spring_energyQ actinin_k actinin_rest) x

/-- Source `ActininHead.force(x)`: the empirical sign table reduces to flipping the
sign when this head is the right-most. -/
def actininHead_force (h : HeadSnap) (x : ℚ) : ℚ :=
  head_spring_property h (spring_forceQ actinin_k actinin_rest) x
    * (if h.selfX > h.otherX then -1 else 1)

/-- Source `Motor.state = max(head states)`, selecting which spring
`MotorHead.force`/`energy` read. -/
def motor_state (selfState otherState : ℕ) : ℕ := max selfState otherState

/-- Rational image of the motor spring constants (`kT = 0.0138 · 288`). -/
def motor_kQ (state : ℕ) : ℚ := if state = 2 then 2 * (1.38e-2 * 288) else 1.38e-2 * 288

/-- Rational rest lengths of the motor springs. -/
def motor_restQ (state : ℕ) : ℚ := if state = 2 then 24 else 30

/-- Source `MotorHead.energy(x)`. -/
def motorHead_energy (h : HeadSnap) (selfState otherState : ℕ) (x : ℚ) : ℚ :=
  head_spring_property h
    (spring_energyQ (motor_kQ (motor_state selfState otherState))
      (motor_restQ (motor_state selfState otherState))) x

/-- Source `MotorHead.force(x)`. -/
def motorHead_force (h : HeadSnap) (selfState otherState : ℕ) (x : ℚ) : ℚ :=
  head_spring_property h
    (spring_forceQ (motor_kQ (motor_state selfState otherState))
      (motor_restQ (motor_state selfState otherState))) x
    * (if h.selfX > h.otherX then -1 else 1)

/-! ## The unbound branch of `Actin.step`
(`stress_fiber/proteins/actin.py`)

For a filament with no bound pairs: `_x_with_balanced_forces` returns the
current `x` unchanged, `_hypothetical_energy` is 0 everywhere, so the whole
step reduces to `_move_to_dissipate_energy(energy_target, x)` whenever the
drawn target is nonzero.  With no bound springs the energy mismatch is
`|target| - drag·|x' - x|`, whose bounded least-squares minimiser is the
exact root clamped to the window `[lo, hi - L]`; we model the bounded
`scipy.optimize.least_squares` call as that exact minimiser.  `drag` is the
filament's fixed drag coefficient, `L` its length, `(lo, hi)` the space
limits. -/

/-- New `x` of an everywhere-unbound filament after `Actin.step`, given the
sampled `energy_target`. -/
def actin_step_unbound (drag L lo hi x target : ℚ) : ℚ :=
  if 0 ≥ |target| then x
  else if target < 0 then
    if lo = x then x else max lo (x - |target| / drag)
  else
    if x = hi - L then x else min (hi - L) (x + target / drag)

/-- Source `Actin.freely_diffuse` (never invoked by `Actin.step`): add the sampled
displacement `dx`, then reflect the whole filament back inside the space
limits with `coerce_to_bounds`; returns the new `x`.  `none` models a
raised exception or non-termination of the reflection. -/
def actin_freely_diffuse (L lo hi x dx : ℚ) : Option ℚ :=
  match coerce_to_bounds 100 (x + dx) (x + dx + L) lo hi with
  | .ok r1 _ => some r1
  | _ => none

lemma mutual_empty : Mutual emptyBState := by
  intro a b h
  simp [emptyBState] at h

lemma bind_eq_some {s : BState} {a b : ℕ} (ha : s a = none) (hb : s b = none) :
    bind s a b
      = some (fun x => if x = b then some a else if x = a then some b else s x) := by
  simp [bind, bbound, ha, hb]

lemma bind_eq_none_left {s : BState} {a b : ℕ} (ha : bbound s a = true) :
    bind s a b = none := by simp [bind, ha]

lemma bind_eq_none_right {s : BState} {a b : ℕ} (hb : bbound s b = true) :
    bind s a b = none := by simp [bind, hb]

lemma unbind_eq_none {s : BState} {a : ℕ} (ha : s a = none) :
    unbind s a = none := by simp [unbind, ha]

lemma mutual_applyOp {s : BState} (hs : Mutual s) (op : BOp)
    (hop : distinctArgs op) : Mutual (applyOp s op) := by
  cases op with
  | doBind a b =>
      simp only [distinctArgs] at hop
      rcases ha : s a with _ | c
      · rcases hb : s b with _ | c
        · -- both sites free: the bind succeeds and installs a mutual pair
          rw [show applyOp s (.doBind a b)
              = fun x => if x = b then some a else if x = a then some b else s x by
            simp [applyOp, bind_eq_some ha hb]]
          intro x y hxy
          by_cases hxb : x = b
          · subst hxb
            simp only [if_pos rfl] at hxy
            obtain rfl : a = y := by simpa using hxy
            exact ⟨Ne.symm hop, by simp [if_neg (Ne.symm hop)]⟩
          · by_cases hxa : x = a
            · subst hxa
              simp only [if_neg hxb, if_pos rfl] at hxy
              obtain rfl : b = y := by simpa using hxy
              exact ⟨hop, by simp⟩
            · simp only [if_neg hxb, if_neg hxa] at hxy
              obtain ⟨hxy', hyx⟩ := hs x y hxy
              have hya : y ≠ a := fun h => by rw [h, ha] at hyx; cases hyx
              have hyb : y ≠ b := fun h => by rw [h, hb] at hyx; cases hyx
              exact ⟨hxy', by simp [if_neg hyb, if_neg hya, hyx]⟩
        · -- second site taken: assertion failure, state unchanged
          have : bbound s b = true := by simp [bbound, hb]
          simpa [applyOp, bind_eq_none_right this] using hs
      · -- first site taken: assertion failure, state unchanged
        have : bbound s a = true := by simp [bbound, ha]
        simpa [applyOp, bind_eq_none_left this] using hs
  | doUnbind a =>
      rcases h : s a with _ | b
      · simpa [applyOp, unbind_eq_none h] using hs
      · obtain ⟨hab, hba⟩ := hs a b h
        rw [show applyOp s (.doUnbind a)
            = fun x => if x = a then none else if x = b then none else s x by
          simp [applyOp, unbind, h, hba]]
        intro x y hxy
        by_cases hxa : x = a
        · simp [hxa] at hxy
        · by_cases hxb : x = b
          · simp [hxa, hxb] at hxy
          · simp only [if_neg hxa, if_neg hxb] at hxy
            obtain ⟨hxy', hyx⟩ := hs x y hxy
            have hya : y ≠ a := by
              intro hy; subst hy; rw [h] at hyx
              obtain rfl : b = x := by simpa using hyx
              exact hxb rfl
            have hyb : y ≠ b := by
              intro hy; subst hy; rw [hba] at hyx
              obtain rfl : a = x := by simpa using hyx
              exact hxa rfl
            exact ⟨hxy', by simp [if_neg hya, if_neg hyb, hyx]⟩

lemma mutual_runOps {s : BState} (hs : Mutual s) (ops : List BOp)
    (hops : ∀ op ∈ ops, distinctArgs op) : Mutual (runOps s ops) := by
  induction ops generalizing s with
  | nil => exact hs
  | cons op rest ih =>
      exact ih (mutual_applyOp hs op (hops op (by simp)))
        (fun o ho => hops o (by simp [ho]))

lemma unbind_eq {s : BState} {a b : ℕ} (h : s a = some b)
    (h2 : (s b).isSome = true) :
    unbind s a
      = some (fun x => if x = a then none else if x = b then none else s x) := by
  simp [unbind, h, h2]

/-- C1: for distinct unbound sites A and B, `bind(A, B)` succeeds, leaves
both sites bound with `A.linked == B.owner` and `B.linked == A.owner`;
`bind` on an already-bound site (either argument) raises; `unbind` on an
unbound site raises; and `bind(A, B)` followed by `A.unbind()` restores
exactly the starting state. -/
theorem c1_bind_unbind_lifecycle :
    (∀ (ow : ℕ → ℕ) (s : BState) (a b : ℕ), a ≠ b → s a = none → s b = none →
      ∃ s', bind s a b = some s' ∧ bbound s' a = true ∧ bbound s' b = true ∧
        blinked ow s' a = some (ow b) ∧ blinked ow s' b = some (ow a) ∧
        unbind s' a = some s)
    ∧ (∀ (s : BState) (a b : ℕ), bbound s a = true → bind s a b = none)
    ∧ (∀ (s : BState) (a b : ℕ), bbound s b = true → bind s a b = none)
    ∧ (∀ (s : BState) (a : ℕ), bbound s a = false → unbind s a = none) := by
  refine ⟨?_, ?_, ?_, ?_⟩
  · intro ow s a b hab ha hb
    refine ⟨_, bind_eq_some ha hb, ?_, ?_, ?_, ?_, ?_⟩
    · simp [bbound, if_neg hab]
    · simp [bbound]
    · simp [blinked, if_neg hab]
    · simp [blinked]
    · have hsa : (fun x => if x = b then some a else if x = a then some b else s x) a
          = some b := by simp [if_neg hab]
      have hsb : ((fun x => if x = b then some a else if x = a then some b else s x) b).isSome
          = true := by simp
      rw [unbind_eq hsa hsb]
      refine congrArg some (funext fun x => ?_)
      by_cases hxa : x = a
      · simp [hxa, ha.symm]
      · by_cases hxb : x = b
        · simp [hxa, hxb, hb.symm]
        · simp [hxa, hxb]
  · intro s a b ha; exact bind_eq_none_left ha
  · intro s a b hb; exact bind_eq_none_right hb
  · intro s a ha
    have : s a = none := by
      rcases h : s a with _ | c
      · rfl
      · rw [bbound, h] at ha; cases ha
    exact unbind_eq_none this

/-- C1 witness: the lifecycle theorem applied to two concrete free sites of
the empty heap. -/
theorem c1_bind_unbind_lifecycle_witness :
    (0 : ℕ) ≠ 1 ∧
    (∃ s', bind emptyBState 0 1 = some s' ∧ bbound s' 0 = true ∧
      bbound s' 1 = true ∧ blinked id s' 0 = some 1 ∧ blinked id s' 1 = some 0 ∧
      unbind s' 0 = some emptyBState) ∧
    bind (fun x => if x = 0 then some 1 else if x = 1 then some 0 else none) 0 2 = none ∧
    unbind emptyBState 0 = none := by
  refine ⟨by decide, c1_bind_unbind_lifecycle.1 id emptyBState 0 1 (by decide) rfl rfl,
    c1_bind_unbind_lifecycle.2.1 _ 0 2 rfl,
    c1_bind_unbind_lifecycle.2.2.2 emptyBState 0 rfl⟩

/-- C8 counterexample: the claimed invariant fails as stated, because the
public interface accepts `site.bind(site)`: from the all-unbound state the
single call `bind(0, 0)` yields a state in which site 0 is linked to
itself, with no assertion raised. -/
theorem c8_counterexample :
    ¬ ∀ (ops : List BOp) (a b : ℕ),
        runOps emptyBState ops a = some b → a ≠ b ∧ runOps emptyBState ops b = some a := by
  intro hcl
  exact (hcl [BOp.doBind 0 0] 0 0 rfl).1 rfl

/-- C8 (amended): in every state reachable from the all-unbound
configuration by public `bind`/`unbind` calls in which every `bind` is
given two distinct sites, each site's link is empty or names exactly one
other, distinct, site, and the link is mutual. -/
theorem c8_mutual_links (ops : List BOp)
    (hops : ∀ op ∈ ops, distinctArgs op) : Mutual (runOps emptyBState ops) :=
  mutual_runOps mutual_empty ops hops

/-- C8 witness: the amended invariant at the concrete one-call trace
`bind(0, 1)`. -/
theorem c8_mutual_links_witness :
    (∀ op ∈ [BOp.doBind 0 1], distinctArgs op) ∧
    Mutual (runOps emptyBState [BOp.doBind 0 1]) :=
  ⟨by decide, c8_mutual_links [BOp.doBind 0 1] (by decide)⟩

lemma coerce_succ (n : ℕ) (m1 m2 b1 b2 : ℚ) :
    coerce_to_bounds (n + 1) m1 m2 b1 b2 =
      if m2 - m1 > b2 - b1 then .err
      else if m1 > m2 ∨ b1 > b2 then .err
      else if m1 < b1 then
        coerce_to_bounds n (m1 + 2 * (b1 - m1)) (m2 + 2 * (b1 - m1)) b1 b2
      else if m2 > b2 then
        coerce_to_bounds n (m1 - 2 * (m2 - b2)) (m2 - 2 * (m2 - b2)) b1 b2
      else .ok m1 m2 := rfl

lemma coerce_example : coerce_to_bounds 3 (-5) 5 0 100 = .ok 5 15 := by
  have h1 : coerce_to_bounds 3 (-5 : ℚ) 5 0 100 = coerce_to_bounds 2 5 15 0 100 := by
    rw [show (3 : ℕ) = 2 + 1 from rfl, coerce_succ]
    norm_num
  have h2 : coerce_to_bounds 2 (5 : ℚ) 15 0 100 = .ok 5 15 := by
    rw [show (2 : ℕ) = 1 + 1 from rfl, coerce_succ]
    norm_num
  rw [h1, h2]

lemma coerce_err_imp (fuel : ℕ) :
    ∀ m1 m2 b1 b2 : ℚ, coerce_to_bounds fuel m1 m2 b1 b2 = .err →
      m2 - m1 > b2 - b1 ∨ m1 > m2 ∨ b1 > b2 := by
  induction fuel with
  | zero => intro m1 m2 b1 b2 h; simp [coerce_to_bounds] at h
  | succ n ih =>
      intro m1 m2 b1 b2 h
      rw [coerce_succ] at h
      by_cases h1 : m2 - m1 > b2 - b1
      · exact Or.inl h1
      by_cases h2 : m1 > m2 ∨ b1 > b2
      · exact Or.inr h2
      rw [if_neg h1, if_neg h2] at h
      by_cases h3 : m1 < b1
      · rw [if_pos h3] at h
        rcases ih _ _ _ _ h with hl | hm | hb
        · exact Or.inl (by linarith)
        · exact Or.inr (Or.inl (by linarith))
        · exact Or.inr (Or.inr hb)
      · rw [if_neg h3] at h
        by_cases h4 : m2 > b2
        · rw [if_pos h4] at h
          rcases ih _ _ _ _ h with hl | hm | hb
          · exact Or.inl (by linarith)
          · exact Or.inr (Or.inl (by linarith))
          · exact Or.inr (Or.inr hb)
        · rw [if_neg h4] at h; cases h

lemma coerce_err_of {fuel : ℕ} (hf : 1 ≤ fuel) {m1 m2 b1 b2 : ℚ}
    (hc : m2 - m1 > b2 - b1 ∨ m1 > m2 ∨ b1 > b2) :
    coerce_to_bounds fuel m1 m2 b1 b2 = .err := by
  obtain ⟨n, rfl⟩ : ∃ n, fuel = n + 1 := ⟨fuel - 1, by omega⟩
  rw [coerce_succ]
  by_cases h1 : m2 - m1 > b2 - b1
  · rw [if_pos h1]
  · rw [if_neg h1, if_pos (hc.resolve_left h1)]

lemma coerce_ok_props (fuel : ℕ) :
    ∀ m1 m2 b1 b2 r1 r2 : ℚ, coerce_to_bounds fuel m1 m2 b1 b2 = .ok r1 r2 →
      r2 - r1 = m2 - m1 ∧ b1 ≤ r1 ∧ r2 ≤ b2 := by
  induction fuel with
  | zero => intro m1 m2 b1 b2 r1 r2 h; simp [coerce_to_bounds] at h
  | succ n ih =>
      intro m1 m2 b1 b2 r1 r2 h
      rw [coerce_succ] at h
      by_cases h1 : m2 - m1 > b2 - b1
      · rw [if_pos h1] at h; cases h
      rw [if_neg h1] at h
      by_cases h2 : m1 > m2 ∨ b1 > b2
      · rw [if_pos h2] at h; cases h
      rw [if_neg h2] at h
      by_cases h3 : m1 < b1
      · rw [if_pos h3] at h
        obtain ⟨hl, hlo, hhi⟩ := ih _ _ _ _ _ _ h
        exact ⟨by linarith, hlo, hhi⟩
      rw [if_neg h3] at h
      by_cases h4 : m2 > b2
      · rw [if_pos h4] at h
        obtain ⟨hl, hlo, hhi⟩ := ih _ _ _ _ _ _ h
        exact ⟨by linarith, hlo, hhi⟩
      · rw [if_neg h4] at h
        cases h
        exact ⟨rfl, by linarith, by linarith⟩

/-- C6: a `coerce_to_bounds` call raises exactly when the segment is longer
than the span or a pair is passed in reverse order; every returning run
preserves the segment length and lands fully inside the bounds; and the
spec's concrete case — a length-10 segment starting at −5 with bounds
(0, 100) — returns the in-bounds segment (5, 15). -/
theorem c6_coerce_to_bounds :
    (∀ (fuel : ℕ) (m1 m2 b1 b2 : ℚ), 1 ≤ fuel →
      (coerce_to_bounds fuel m1 m2 b1 b2 = .err ↔
        m2 - m1 > b2 - b1 ∨ m1 > m2 ∨ b1 > b2))
    ∧ (∀ (fuel : ℕ) (m1 m2 b1 b2 r1 r2 : ℚ),
        coerce_to_bounds fuel m1 m2 b1 b2 = .ok r1 r2 →
        r2 - r1 = m2 - m1 ∧ b1 ≤ r1 ∧ r2 ≤ b2)
    ∧ coerce_to_bounds 3 (-5) 5 0 100 = .ok 5 15 :=
  ⟨fun fuel m1 m2 b1 b2 hf => ⟨coerce_err_imp fuel m1 m2 b1 b2, coerce_err_of hf⟩,
    coerce_ok_props, coerce_example⟩

/-- C6 witness: the raise-iff and return-shape clauses instantiated at
concrete runs (an inverted-bounds call errs, the spec's example returns a
length-10 segment inside the bounds). -/
theorem c6_coerce_to_bounds_witness :
    (1 ≤ 1 ∧ (coerce_to_bounds 1 0 1 (10 : ℚ) 0 = .err ↔
      (1 : ℚ) - 0 > 0 - 10 ∨ (0 : ℚ) > 1 ∨ (10 : ℚ) > 0))
    ∧ (coerce_to_bounds 3 (-5) 5 0 100 = .ok 5 15 ∧
        (15 : ℚ) - 5 = 5 - (-5) ∧ (0 : ℚ) ≤ 5 ∧ (15 : ℚ) ≤ 100) :=
  ⟨⟨le_refl 1, c6_coerce_to_bounds.1 1 0 1 10 0 (le_refl 1)⟩,
    coerce_example, c6_coerce_to_bounds.2.1 3 (-5) 5 0 100 5 15 coerce_example⟩

lemma coerce_loop (n : ℕ) :
    coerce_to_bounds n (-1) 99 0 100 = .outOfFuel ∧
    coerce_to_bounds n 1 101 0 100 = .outOfFuel := by
  induction n with
  | zero => exact ⟨rfl, rfl⟩
  | succ m ih =>
      constructor
      · rw [coerce_succ]
        norm_num
        exact ih.2
      · rw [coerce_succ]
        norm_num
        exact ih.1

/-- C7 counterexample: the claim fails when the segment length equals the
span: `coerce_to_bounds(-1, 99, (0, 100))` satisfies start ≤ end, lo ≤ hi
and length ≤ span, yet the reflection alternates between (−1, 99) and
(1, 101) forever and never returns. -/
theorem c7_counterexample :
    ¬ ∀ m1 m2 b1 b2 : ℚ, m1 ≤ m2 → b1 ≤ b2 → m2 - m1 ≤ b2 - b1 →
        CoerceTerminates m1 m2 b1 b2 := by
  intro hcl
  obtain ⟨n, r1, r2, hr⟩ :=
    hcl (-1) 99 0 100 (by norm_num) (by norm_num) (by norm_num)
  rw [(coerce_loop n).1] at hr
  cases hr

lemma coerce_term_aux (k : ℕ) :
    ∀ m1 m2 b1 b2 : ℚ, m1 ≤ m2 → b1 ≤ b2 → m2 - m1 < b2 - b1 →
      b1 - m1 ≤ k * (b2 - b1 - (m2 - m1)) →
      m2 - b2 ≤ k * (b2 - b1 - (m2 - m1)) →
      ∃ r1 r2, coerce_to_bounds (k + 1) m1 m2 b1 b2 = .ok r1 r2 := by
  induction k with
  | zero =>
      intro m1 m2 b1 b2 hm hb hlen h1 h2
      push_cast at h1 h2
      refine ⟨m1, m2, ?_⟩
      rw [coerce_succ, if_neg (by linarith),
        if_neg (not_or.mpr ⟨not_lt.mpr hm, not_lt.mpr hb⟩),
        if_neg (not_lt.mpr (by linarith)), if_neg (not_lt.mpr (by linarith))]
  | succ j ih =>
      intro m1 m2 b1 b2 hm hb hlen h1 h2
      push_cast at h1 h2
      have hslack : (0 : ℚ) < b2 - b1 - (m2 - m1) := by linarith
      have hjs : (0 : ℚ) ≤ j * (b2 - b1 - (m2 - m1)) :=
        mul_nonneg (by positivity) (le_of_lt hslack)
      by_cases hc1 : m1 < b1
      · have hrec := ih (m1 + 2 * (b1 - m1)) (m2 + 2 * (b1 - m1)) b1 b2
          (by linarith) hb (by linarith) (by linarith) (by linarith)
        obtain ⟨r1, r2, hr⟩ := hrec
        refine ⟨r1, r2, ?_⟩
        rw [coerce_succ, if_neg (by linarith),
          if_neg (not_or.mpr ⟨not_lt.mpr hm, not_lt.mpr hb⟩), if_pos hc1]
        exact hr
      · by_cases hc2 : m2 > b2
        · have hrec := ih (m1 - 2 * (m2 - b2)) (m2 - 2 * (m2 - b2)) b1 b2
            (by linarith) hb (by linarith) (by push_neg at hc1; linarith)
            (by linarith)
          obtain ⟨r1, r2, hr⟩ := hrec
          refine ⟨r1, r2, ?_⟩
          rw [coerce_succ, if_neg (by linarith),
            if_neg (not_or.mpr ⟨not_lt.mpr hm, not_lt.mpr hb⟩), if_neg hc1, if_pos hc2]
          exact hr
        · refine ⟨m1, m2, ?_⟩
          rw [coerce_succ, if_neg (by linarith),
            if_neg (not_or.mpr ⟨not_lt.mpr hm, not_lt.mpr hb⟩), if_neg hc1, if_neg hc2]

/-- C7 (amended): `coerce_to_bounds` terminates on every accepted input
whose segment is strictly shorter than the span (start ≤ end, lo ≤ hi,
end − start < hi − lo); when the length exactly equals the span the
reflection can alternate forever. -/
theorem c7_terminates (m1 m2 b1 b2 : ℚ) (hm : m1 ≤ m2) (hb : b1 ≤ b2)
    (hlen : m2 - m1 < b2 - b1) : CoerceTerminates m1 m2 b1 b2 := by
  have hslack : (0 : ℚ) < b2 - b1 - (m2 - m1) := by linarith
  obtain ⟨k, hk⟩ := exists_nat_ge (max (b1 - m1) (m2 - b2) / (b2 - b1 - (m2 - m1)))
  have hmax : max (b1 - m1) (m2 - b2) ≤ k * (b2 - b1 - (m2 - m1)) :=
    (div_le_iff₀ hslack).mp hk
  obtain ⟨r1, r2, hr⟩ := coerce_term_aux k m1 m2 b1 b2 hm hb hlen
    (le_trans (le_max_left _ _) hmax) (le_trans (le_max_right _ _) hmax)
  exact ⟨k + 1, r1, r2, hr⟩

/-- C7 witness: termination at the spec's concrete example, a length-10
segment starting at −5 with bounds (0, 100). -/
theorem c7_terminates_witness :
    (-5 : ℚ) ≤ 5 ∧ (0 : ℚ) ≤ 100 ∧ (5 : ℚ) - (-5) < 100 - 0 ∧
    CoerceTerminates (-5) 5 0 100 :=
  ⟨by norm_num, by norm_num, by norm_num,
    c7_terminates (-5) 5 0 100 (by norm_num) (by norm_num) (by norm_num)⟩

lemma closestAux_choice (p best : Coord) (l : List Coord) :
    closestAux p best l = best ∨ closestAux p best l ∈ l := by
  induction l generalizing best with
  | nil => exact Or.inl rfl
  | cons c cs ih =>
      simp only [closestAux]
      split
      · rcases ih c with h | h
        · exact Or.inr (by simp [h])
        · exact Or.inr (by simp [h])
      · rcases ih best with h | h
        · exact Or.inl h
        · exact Or.inr (by simp [h])

lemma closestAux_le (p best : Coord) (l : List Coord) :
    distance p (closestAux p best l) ≤ distance p best ∧
    ∀ c ∈ l, distance p (closestAux p best l) ≤ distance p c := by
  induction l generalizing best with
  | nil => exact ⟨le_refl _, by simp⟩
  | cons c cs ih =>
      simp only [closestAux]
      split
      · rename_i hlt
        obtain ⟨h1, h2⟩ := ih c
        refine ⟨le_trans h1 (le_of_lt hlt), fun d hd => ?_⟩
        rcases List.mem_cons.mp hd with rfl | hd
        · exact h1
        · exact h2 d hd
      · rename_i hnlt
        obtain ⟨h1, h2⟩ := ih best
        refine ⟨h1, fun d hd => ?_⟩
        rcases List.mem_cons.mp hd with rfl | hd
        · exact le_trans h1 (not_lt.mp hnlt)
        · exact h2 d hd

lemma closest_le (p : Coord) {l : List Coord} {c : Coord} (hc : c ∈ l) :
    distance p (closest p l) ≤ distance p c := by
  cases l with
  | nil => cases hc
  | cons d ds =>
      rcases List.mem_cons.mp hc with rfl | hc
      · exact (closestAux_le p c ds).1
      · exact (closestAux_le p d ds).2 c hc

lemma closest_mem (p : Coord) {l : List Coord} (hne : l ≠ []) :
    closest p l ∈ l := by
  cases l with
  | nil => exact absurd rfl hne
  | cons d ds =>
      show closestAux p d ds ∈ d :: ds
      rcases closestAux_choice p d ds with h | h
      · simp [h]
      · simp [h]

lemma roll1_iterate_sum (n : ℕ) (p : Coord) :
    (roll1^[n] p).1 + (roll1^[n] p).2.1 + (roll1^[n] p).2.2
      = p.1 + p.2.1 + p.2.2 := by
  induction n generalizing p with
  | zero => simp
  | succ m ih =>
      rw [Function.iterate_succ_apply, ih]
      simp only [roll1]
      ring

lemma rotate_sum_zero {p : Coord} (hp : p.1 + p.2.1 + p.2.2 = 0) (n : ℕ) :
    (rotate_about_center p n).1 + (rotate_about_center p n).2.1
      + (rotate_about_center p n).2.2 = 0 := by
  have h := roll1_iterate_sum n p
  rw [hp] at h
  simp only [rotate_about_center]
  split
  · simp only []
    linarith
  · exact h

lemma centers_sum_zero (r : ℕ) {c : Coord} (hc : c ∈ mirrored_centers r) :
    c.1 + c.2.1 + c.2.2 = 0 := by
  simp only [mirrored_centers, List.mem_map] at hc
  obtain ⟨n, _, rfl⟩ := hc
  exact rotate_sum_zero (by ring) n

lemma distance_le_iff (p q : Coord) (n : ℕ) :
    distance p q ≤ (n : ℚ) ↔ dist2 p q ≤ 2 * n := by
  rw [distance, div_le_iff₀ (by norm_num : (0 : ℚ) < 2)]
  constructor
  · intro h
    have h' : ((dist2 p q : ℚ)) ≤ ((2 * n : ℕ) : ℚ) := by push_cast; linarith
    exact_mod_cast h'
  · intro h
    have h' : ((dist2 p q : ℚ)) ≤ ((2 * n : ℕ) : ℚ) := by exact_mod_cast h
    push_cast at h'
    linarith

lemma distance_lt_iff (p a b : Coord) :
    distance p a < distance p b ↔ dist2 p a < dist2 p b := by
  rw [distance, distance, div_lt_div_iff_of_pos_right (by norm_num : (0 : ℚ) < 2)]
  exact_mod_cast Iff.rfl

lemma mirrored_centers_one :
    mirrored_centers 1 = [(3, -1, -2), (2, -3, 1), (-1, -2, 3),
      (-3, 1, 2), (-2, 3, -1), (1, 2, -3)] := by
  decide

/-- C2 counterexample: the claim fails for coordinates far outside the
grid.  With radius 1 the valid coordinate (10, −5, −5) is mirrored to
(7, −4, −3), which is still outside radius 1: subtracting the single
nearest mirrored center folds only the first ring of ghost worlds back
in. -/
theorem c2_counterexample :
    validate (10, -5, -5) ∧ ¬ within_radius (mirror (10, -5, -5) 1) 1 := by
  have hclosest : closest (10, -5, -5) (mirrored_centers 1) = (3, -1, -2) := by
    rw [mirrored_centers_one]
    simp only [closest, closestAux, distance_lt_iff]
    norm_num [dist2]
  have hm : mirror (10, -5, -5) 1 = (7, -4, -3) := by
    rw [mirror, if_neg (by decide), hclosest]
    decide
  rw [hm]
  exact ⟨by decide, by decide⟩

/-- C2 (amended): for a mirrored grid of radius n, `mirror(loc)` returns a
coordinate within radius n for every valid cube coordinate that is either
already within radius n or within hex distance n of one of the six
mirrored centers; coordinates farther out may be returned still outside
the radius (a single center subtraction only folds the first ring of ghost
worlds back in). -/
theorem c2_mirror_within (r : ℕ) (p : Coord) (hp : validate p)
    (h : within_radius p r ∨ ∃ c ∈ mirrored_centers r, distance p c ≤ (r : ℚ)) :
    within_radius (mirror p r) r := by
  by_cases hin : within_radius p r
  · rw [mirror, if_pos hin]
    exact hin
  rcases h with h | ⟨c, hc, hd⟩
  · exact absurd h hin
  rw [mirror, if_neg hin]
  have hne : mirrored_centers r ≠ [] := by simp [mirrored_centers]
  have hqmem : closest p (mirrored_centers r) ∈ mirrored_centers r :=
    closest_mem p hne
  have hqd : distance p (closest p (mirrored_centers r)) ≤ (r : ℚ) :=
    le_trans (closest_le p hc) hd
  have hq0 := centers_sum_zero r hqmem
  have hd2 : dist2 p (closest p (mirrored_centers r)) ≤ 2 * r :=
    (distance_le_iff p _ r).mp hqd
  have hp0 : p.1 + p.2.1 + p.2.2 = 0 := hp
  unfold dist2 at hd2
  simp only [within_radius, max_le_iff]
  refine ⟨⟨?_, ?_⟩, ?_⟩ <;> omega

/-- C2 witness: the amended theorem at radius 1 and the just-outside
coordinate (2, −1, −1), which the mirror folds to (−1, 0, 1), inside the
grid. -/
theorem c2_mirror_within_witness :
    validate (2, -1, -1) ∧
    ((3, -1, -2) ∈ mirrored_centers 1 ∧
      distance (2, -1, -1) (3, -1, -2) ≤ ((1 : ℕ) : ℚ)) ∧
    within_radius (mirror (2, -1, -1) 1) 1 := by
  have hmem : ((3 : ℤ), (-1 : ℤ), (-2 : ℤ)) ∈ mirrored_centers 1 := by
    rw [mirrored_centers_one]
    simp
  have hd : distance (2, -1, -1) (3, -1, -2) ≤ ((1 : ℕ) : ℚ) := by
    rw [distance_le_iff]
    decide
  exact ⟨by decide, ⟨hmem, hd⟩,
    c2_mirror_within 1 (2, -1, -1) (by decide) (Or.inr ⟨_, hmem, hd⟩)⟩

/-- C9: `rate_to_prob(rate, Δt)` equals 1 − exp(−rate·Δt), is 0 at rate 0
for every Δt, is monotonically non-decreasing in the rate and in Δt for
nonnegative arguments, and tends to 1 as the rate tends to infinity (for a
positive observation window). -/
theorem c9_rate_to_prob :
    (∀ rate dt : ℝ, rate_to_prob rate dt = 1 - Real.exp (-rate * dt))
    ∧ (∀ dt : ℝ, rate_to_prob 0 dt = 0)
    ∧ (∀ r1 r2 dt : ℝ, 0 ≤ dt → r1 ≤ r2 →
        rate_to_prob r1 dt ≤ rate_to_prob r2 dt)
    ∧ (∀ rate t1 t2 : ℝ, 0 ≤ rate → t1 ≤ t2 →
        rate_to_prob rate t1 ≤ rate_to_prob rate t2)
    ∧ (∀ dt : ℝ, 0 < dt →
        Filter.Tendsto (fun rate => rate_to_prob rate dt) Filter.atTop (nhds 1)) := by
  refine ⟨fun _ _ => rfl, fun dt => by simp [rate_to_prob], ?_, ?_, ?_⟩
  · intro r1 r2 dt hdt h12
    have : -r2 * dt ≤ -r1 * dt := by nlinarith
    have := Real.exp_le_exp.mpr this
    simp only [rate_to_prob]
    linarith
  · intro rate t1 t2 hr h12
    have : -rate * t2 ≤ -rate * t1 := by nlinarith
    have := Real.exp_le_exp.mpr this
    simp only [rate_to_prob]
    linarith
  · intro dt hdt
    have h1 : Filter.Tendsto (fun rate : ℝ => -rate * dt) Filter.atTop Filter.atBot := by
      have h2 : Filter.Tendsto (fun rate : ℝ => rate * dt) Filter.atTop Filter.atTop :=
        Filter.Tendsto.atTop_mul_const hdt Filter.tendsto_id
      have h3 := Filter.tendsto_neg_atTop_atBot.comp h2
      refine h3.congr fun rate => ?_
      simp [neg_mul]
    have h4 : Filter.Tendsto (fun rate : ℝ => Real.exp (-rate * dt))
        Filter.atTop (nhds 0) := Real.tendsto_exp_atBot.comp h1
    have h5 := Filter.Tendsto.const_sub 1 h4
    simpa [rate_to_prob] using h5

/-- C9 witness: the theorem instantiated at concrete rates and windows. -/
theorem c9_rate_to_prob_witness :
    rate_to_prob 0 1 = 0
    ∧ ((0 : ℝ) ≤ 1 ∧ rate_to_prob 0 1 ≤ rate_to_prob 1 1)
    ∧ ((0 : ℝ) ≤ 1 ∧ rate_to_prob 1 1 ≤ rate_to_prob 1 2)
    ∧ ((0 : ℝ) < 1 ∧
        Filter.Tendsto (fun rate => rate_to_prob rate 1) Filter.atTop (nhds 1)) :=
  ⟨c9_rate_to_prob.2.1 1,
    ⟨zero_le_one, c9_rate_to_prob.2.2.1 0 1 1 zero_le_one zero_le_one⟩,
    ⟨zero_le_one, c9_rate_to_prob.2.2.2.1 1 1 2 zero_le_one one_le_two⟩,
    ⟨zero_lt_one, c9_rate_to_prob.2.2.2.2 1 zero_lt_one⟩⟩

lemma mh_step_inv {h h' : MHState} {a : MHInput} (hinv : MHInv h)
    (hstep : mh_step h a = some h') : MHInv h' := by
  unfold mh_step at hstep
  by_cases h0 : h.state = 0
  · rw [if_pos h0] at hstep
    rcases hbs : a.bs with _ | site
    · rw [hbs] at hstep; cases hstep
    · rw [hbs] at hstep
      simp only at hstep
      split_ifs at hstep
      all_goals cases hstep
      all_goals first | exact hinv | decide
  · rw [if_neg h0] at hstep
    by_cases h1 : h.state = 1
    · rw [if_pos h1] at hstep
      rcases hlen : a.length with _ | len
      · rw [hlen] at hstep; cases hstep
      · rw [hlen] at hstep
        simp only at hstep
        have hbound : h.bsBound = true := hinv.mpr (Or.inl h1)
        split_ifs at hstep
        all_goals cases hstep
        all_goals first | exact hinv | decide | simp [MHInv, hbound]
    · rw [if_neg h1] at hstep
      by_cases h2 : h.state = 2
      · rw [if_pos h2] at hstep
        rcases hlen : a.length with _ | len
        · rw [hlen] at hstep; cases hstep
        · rw [hlen] at hstep
          simp only at hstep
          have hbound : h.bsBound = true := hinv.mpr (Or.inr h2)
          split_ifs at hstep
          all_goals cases hstep
          all_goals first | exact hinv | decide | simp [MHInv, hbound]
      · rw [if_neg h2] at hstep
        cases hstep

lemma mh_run_inv {h h' : MHState} (hinv : MHInv h) {tr : List MHInput}
    (hr : mh_run h tr = some h') : MHInv h' := by
  induction tr generalizing h with
  | nil =>
      rw [mh_run] at hr
      cases hr
      exact hinv
  | cons a rest ih =>
      rw [mh_run] at hr
      rcases hs : mh_step h a with _ | h''
      · rw [hs] at hr; cases hr
      · rw [hs] at hr
        exact ih (mh_step_inv hinv hs) hr

/-- C5: starting from a freshly constructed unbound `MotorHead` and
stepping any number of times, every state reached has its `BindingSite`
bound exactly when the head state is weak (1) or strong (2); and a single
step from the unbound state (0) never lands in the strong state (2) — the
forward path cannot skip the weak state. -/
theorem c5_motor_head_state_machine :
    (∀ (tr : List MHInput) (h' : MHState), mh_run mh_init tr = some h' →
      (h'.bsBound = true ↔ h'.state = 1 ∨ h'.state = 2))
    ∧ (∀ (h : MHState) (a : MHInput) (h' : MHState), h.state = 0 →
        mh_step h a = some h' → h'.state ≠ 2) := by
  constructor
  · intro tr h' hr
    exact mh_run_inv (by simp [MHInv, mh_init]) hr
  · intro h a h' h0 hstep
    unfold mh_step at hstep
    rw [if_pos h0] at hstep
    rcases hbs : a.bs with _ | site
    · rw [hbs] at hstep; cases hstep
    · rw [hbs] at hstep
      simp only at hstep
      split_ifs at hstep
      all_goals cases hstep
      all_goals simp [h0]

/-- C5 witness: the state-machine theorem applied to the trivial trace and
to a concrete step that hits the self-binding guard (state and binding
unchanged, so the state is certainly not strong). -/
theorem c5_motor_head_state_machine_witness :
    (mh_run mh_init [] = some mh_init ∧
      (mh_init.bsBound = true ↔ mh_init.state = 1 ∨ mh_init.state = 2))
    ∧ (mh_init.state = 0 ∧
        mh_step mh_init ⟨some (false, 0), true, none, 0, 0⟩ = some mh_init ∧
        mh_init.state ≠ 2) := by
  have hs : mh_step mh_init ⟨some (false, 0), true, none, 0, 0⟩ = some mh_init := rfl
  exact ⟨⟨rfl, c5_motor_head_state_machine.1 [] mh_init rfl⟩,
    ⟨rfl, hs, c5_motor_head_state_machine.2 mh_init _ mh_init rfl hs⟩⟩

/-- C4 counterexample: the claim fails at a head whose own site is unbound
while its partner is bound.  `_spring_property` consults only
`other_head.bs.bound`, so an `ActininHead` with `bs` unbound and a bound
partner 46 nm away reports the full spring energy 187.5 pN·nm, not 0. -/
theorem c4_counterexample :
    actininHead_energy ⟨false, true, 46, 0⟩ 46 ≠ 0 ∧
    (⟨false, true, 46, 0⟩ : HeadSnap).selfBound = false := by
  constructor
  · rw [show actininHead_energy ⟨false, true, 46, 0⟩ 46
        = spring_energyQ actinin_k actinin_rest |46 - 0| from rfl]
    norm_num [spring_energyQ, actinin_k, actinin_rest]
  · rfl

/-- C4 (amended): `force(x)`/`energy(x)` of a crosslinker or motor head
return 0 whenever the molecule's OTHER head is unbound; the head's own
`BindingSite` is never consulted, so whenever the other head is bound the
head reports the spring property of the span from `x` to the partner
regardless of its own binding state. -/
theorem c4_head_spring_property :
    (∀ (h : HeadSnap) (x : ℚ), h.otherBound = false →
      actininHead_force h x = 0 ∧ actininHead_energy h x = 0)
    ∧ (∀ (h : HeadSnap) (s1 s2 : ℕ) (x : ℚ), h.otherBound = false →
      motorHead_force h s1 s2 x = 0 ∧ motorHead_energy h s1 s2 x = 0)
    ∧ (∀ (h : HeadSnap) (x : ℚ), h.otherBound = true →
      actininHead_energy h x = spring_energyQ actinin_k actinin_rest |x - h.otherX|) := by
  refine ⟨fun h x ho => ?_, fun h s1 s2 x ho => ?_, fun h x ho => ?_⟩
  · constructor <;>
      simp [actininHead_force, actininHead_energy, head_spring_property, ho]
  · constructor <;>
      simp [motorHead_force, motorHead_energy, head_spring_property, ho]
  · simp [actininHead_energy, head_spring_property, ho]

/-- C4 witness: the amended theorem at concrete snapshots — an unbound
partner forces both properties to 0; a bound partner makes the energy the
spring energy of the span, even though the own site is unbound. -/
theorem c4_head_spring_property_witness :
    ((⟨true, false, 0, 0⟩ : HeadSnap).otherBound = false ∧
      actininHead_force ⟨true, false, 0, 0⟩ 5 = 0 ∧
      actininHead_energy ⟨true, false, 0, 0⟩ 5 = 0) ∧
    ((⟨true, false, 0, 0⟩ : HeadSnap).otherBound = false ∧
      motorHead_force ⟨true, false, 0, 0⟩ 1 2 5 = 0 ∧
      motorHead_energy ⟨true, false, 0, 0⟩ 1 2 5 = 0) ∧
    ((⟨false, true, 46, 0⟩ : HeadSnap).otherBound = true ∧
      actininHead_energy ⟨false, true, 46, 0⟩ 46
        = spring_energyQ actinin_k actinin_rest |46 - 0|) := by
  have h1 := c4_head_spring_property.1 ⟨true, false, 0, 0⟩ 5 rfl
  have h2 := c4_head_spring_property.2.1 ⟨true, false, 0, 0⟩ 1 2 5 rfl
  have h3 := c4_head_spring_property.2.2 ⟨false, true, 46, 0⟩ 46 rfl
  exact ⟨⟨rfl, h1.1, h1.2⟩, ⟨rfl, h2.1, h2.2⟩, ⟨rfl, h3⟩⟩

/-- C3: evidence for the divergence between `Actin.step` and the spec.  At
the failing input — an everywhere-unbound filament of length 10 at x = 85
in space (0, 100), unit drag, a drawn energy target of 20 — the step the
code actually takes is the energy-budget move to x = 90 (the displacement
target/drag clamped at the boundary window, with no diffusion sample
consulted and no reflection), while the claimed behaviour, the retained
but never-invoked `freely_diffuse`, would move by the sampled `Dx` (here
20) and reflect off the wall back to x = 75 via `coerce_to_bounds`. -/
theorem c3_actin_step_divergence :
    actin_step_unbound 1 10 0 100 85 20 = 90 ∧
    actin_freely_diffuse 10 0 100 85 20 = some 75 := by
  constructor
  · rw [actin_step_unbound]
    norm_num
  · have h1 : coerce_to_bounds 100 (85 + 20 : ℚ) (85 + 20 + 10) 0 100
        = coerce_to_bounds 99 75 85 0 100 := by
      rw [show (100 : ℕ) = 99 + 1 from rfl, coerce_succ]
      norm_num
    have h2 : coerce_to_bounds 99 (75 : ℚ) 85 0 100 = .ok 75 85 := by
      rw [show (99 : ℕ) = 98 + 1 from rfl, coerce_succ]
      norm_num
    rw [actin_freely_diffuse, h1, h2]

end Flins
